import Mathlib

/- Verification development for the wireframe renderer: the matrix engine
   (matrix/matrix.go), the edge model and rasterizer (the draw package),
   the screen constants (display/display.go) and the script-level transform
   composition (parser/parser.go), shallowly embedded in Lean.  Go float64
   arithmetic is modelled over a linear ordered field equipped with a floor
   function; structural claims are evaluated at Rat, trigonometric code is
   embedded at Real. -/

namespace Wireframe

/-- Matrix values are lists of rows, mirroring the Go type [][]float64. -/
abbrev Mat (α : Type) := List (List α)

/-- Color values are integer triples, mirroring the Go type []int. -/
abbrev Color := List Int

/-- Screen values are lists of rows of colors, mirroring [][][]int. -/
abbrev Screen := List (List Color)

/-- listModify applies f to the element at index i of a list, the Go
    slice-update idiom m[i] = f(m[i]).  Out of range indices leave the
    list unchanged (Go would panic there; no verified claim touches such
    an index). -/
def listModify {β : Type} (f : β → β) : Nat → List β → List β
  | _, [] => []
  | 0, r :: rs => f r :: rs
  | n+1, r :: rs => r :: listModify f n rs

/-- setEntry writes value v at row i, column j, the Go idiom m[i][j] = v. -/
def setEntry {α : Type} (m : Mat α) (i j : Nat) (v : α) : Mat α :=
  listModify (fun row => row.set j v) i m

section MatrixEngine

variable {α : Type} [LinearOrderedField α] [FloorRing α]

/-- NewMatrix from matrix.go: a rows-by-cols zero matrix, defaulting to
    4 by 4 when fewer than two size parameters are supplied. -/
def NewMatrix (params : List Nat) : Mat α :=
  let rows := if 2 ≤ params.length then params.getD 0 4 else 4
  let cols := if 2 ≤ params.length then params.getD 1 4 else 4
  List.replicate rows (List.replicate cols (0 : α))

/-- MakeIdentity from matrix.go: overwrite every entry of the matrix with
    1 on the diagonal and 0 elsewhere, keeping the shape. -/
def MakeIdentity (m : Mat α) : Mat α :=
  m.enum.map (fun p => p.2.enum.map (fun q => if p.1 = q.1 then (1 : α) else 0))

/-- dot from matrix.go: iterate over the indices of the first vector and
    sum the products of corresponding entries. -/
def dot (x y : List α) : α :=
  (List.range x.length).foldl (fun output i => output + x.getD i 0 * y.getD i 0) 0

/-- ExtractColumn from matrix.go: the j-th entry of every row, as a list. -/
def ExtractColumn (m : Mat α) (colIndex : Nat) : List α :=
  m.map (fun row => row.getD colIndex 0)

/-- matMul is the local variable product built inside MultiplyMatrices:
    a len(m1) by len(m2[0]) matrix whose (i, j) entry is the dot product
    of row i of m1 with column j of m2. -/
def matMul (m1 m2 : Mat α) : Mat α :=
  m1.map (fun row => (List.range (m2.headD []).length).map
    (fun j => dot row (ExtractColumn m2 j)))

/-- MultiplyMatrices from matrix.go takes two pointers, computes the
    product of the two matrices and stores it through the second pointer,
    leaving the first pointee untouched.  The pair returned here is the
    pair of pointee values after the call. -/
def MultiplyMatrices (m1 m2 : Mat α) : Mat α × Mat α :=
  (m1, matMul m1 m2)

/-- MakeBezier from matrix.go: a fresh 4 by 4 matrix with the Bezier
    coefficient entries assigned one by one. -/
def MakeBezier : Mat α :=
  let t : Mat α := NewMatrix []
  let t := setEntry t 0 0 (-1)
  let t := setEntry t 0 1 3
  let t := setEntry t 0 2 (-3)
  let t := setEntry t 0 3 1
  let t := setEntry t 1 0 3
  let t := setEntry t 1 1 (-6)
  let t := setEntry t 1 2 3
  let t := setEntry t 2 0 (-3)
  let t := setEntry t 2 1 3
  let t := setEntry t 3 0 1
  t

/-- MakeHermite from matrix.go: a fresh 4 by 4 matrix with the Hermite
    coefficient entries assigned one by one. -/
def MakeHermite : Mat α :=
  let t : Mat α := NewMatrix []
  let t := setEntry t 0 0 2
  let t := setEntry t 0 1 (-2)
  let t := setEntry t 0 2 1
  let t := setEntry t 0 3 1
  let t := setEntry t 1 0 (-3)
  let t := setEntry t 1 1 3
  let t := setEntry t 1 2 (-2)
  let t := setEntry t 1 3 (-1)
  let t := setEntry t 2 2 1
  let t := setEntry t 3 0 1
  t

/-- MakeTranslationMatrix from matrix.go: identity with the translation
    offsets in column 3 of rows 0 to 2 (the Go function receives the
    offsets as the first three variadic arguments). -/
def MakeTranslationMatrix (x y z : α) : Mat α :=
  setEntry (setEntry (setEntry (MakeIdentity (NewMatrix [])) 0 3 x) 1 3 y) 2 3 z

/-- MakeDilationMatrix from matrix.go: identity with the dilation factors
    on the diagonal entries of rows 0 to 2. -/
def MakeDilationMatrix (x y z : α) : Mat α :=
  setEntry (setEntry (setEntry (MakeIdentity (NewMatrix [])) 0 0 x) 1 1 y) 2 2 z

end MatrixEngine

/-- MakeRotX from matrix.go: converts theta from degrees to radians as
    theta / 180 * pi, then overwrites the rows-and-columns-1-2 plane of
    the identity with the rotation entries. -/
noncomputable def MakeRotX (theta : Real) : Mat Real :=
  let m : Mat Real := NewMatrix []
  let radians := theta / 180 * Real.pi
  let s := Real.sin radians
  let c := Real.cos radians
  let m := MakeIdentity m
  let m := setEntry m 1 1 c
  let m := setEntry m 1 2 (-s)
  let m := setEntry m 2 1 s
  let m := setEntry m 2 2 c
  m

/-- MakeRotY from matrix.go: converts theta from degrees to radians, then
    overwrites the rows-and-columns-0-2 plane of the identity with
    cos at (0,0) and (2,2), sin at (0,2) and negated sin at (2,0). -/
noncomputable def MakeRotY (theta : Real) : Mat Real :=
  let m : Mat Real := NewMatrix []
  let radians := theta / 180 * Real.pi
  let s := Real.sin radians
  let c := Real.cos radians
  let m := MakeIdentity m
  let m := setEntry m 0 0 c
  let m := setEntry m 0 2 s
  let m := setEntry m 2 0 (-s)
  let m := setEntry m 2 2 c
  m

/-- MakeRotZ from matrix.go: converts theta from degrees to radians, then
    overwrites the rows-and-columns-0-1 plane of the identity with
    cos at (0,0) and (1,1), negated sin at (0,1) and sin at (1,0). -/
noncomputable def MakeRotZ (theta : Real) : Mat Real :=
  let m : Mat Real := NewMatrix []
  let radians := theta / 180 * Real.pi
  let s := Real.sin radians
  let c := Real.cos radians
  let m := MakeIdentity m
  let m := setEntry m 0 0 c
  let m := setEntry m 0 1 (-s)
  let m := setEntry m 1 0 s
  let m := setEntry m 1 1 c
  m

/-- Helper for the termination measures of the float-controlled loops:
    stepping a nonnegative quantity down by one strictly shrinks the
    natural number floor-plus-one measure. -/
theorem toNat_floor_sub_one_lt {α : Type} [LinearOrderedField α] [FloorRing α]
    {z : α} (hz : 0 ≤ z) : (⌊z - 1⌋ + 1).toNat < (⌊z⌋ + 1).toNat := by
  have h1 : ⌊z - 1⌋ = ⌊z⌋ - 1 := by
    have h := Int.floor_sub_int z 1
    simpa using h
  have h0 : 0 ≤ ⌊z⌋ := Int.floor_nonneg.2 hz
  omega

/-- stepRange models the Go loop idiom for t := start; t <= limit;
    t += step, returning the list of visited loop-counter values.  The
    counter is tracked in exact field arithmetic; a compiled float64 loop
    can stop one iteration earlier when accumulated rounding pushes the
    counter past the limit, so iteration counts of this model are not
    claims about the binary.  A nonpositive step yields the empty list;
    there the Go loop would not terminate, and no caller in the
    repository uses one. -/
def stepRange {α : Type} [LinearOrderedField α] [FloorRing α] (limit step t : α) : List α :=
  if h : 0 < step ∧ t ≤ limit then t :: stepRange limit step (t + step) else []
termination_by (⌊(limit - t) / step⌋ + 1).toNat
decreasing_by
  have hstep : (0 : α) < step := h.1
  have hne : step ≠ 0 := ne_of_gt hstep
  have hz : 0 ≤ (limit - t) / step := div_nonneg (by linarith [h.2]) hstep.le
  have harg : (limit - (t + step)) / step = (limit - t) / step - 1 := by
    rw [show limit - (t + step) = limit - t - step by ring, sub_div, div_self hne]
  rw [harg]
  exact toNat_floor_sub_one_lt hz

section DrawPackage

variable {α : Type} [LinearOrderedField α] [FloorRing α]

/-- XRES from display.go. -/
def XRES : Int := 500

/-- YRES from display.go. -/
def YRES : Int := 500

/-- DefaultDrawColor from the draw package: the initial value of the
    process-wide draw color.  The mutable global is modelled by passing
    the current color explicitly to the drawing functions. -/
def DefaultDrawColor : Color := [0, 0, 0]

/-- SetColor from the draw package, acting on the explicit color state. -/
def SetColor (color : String) (current : Color) : Color :=
  if color = "yellow" then [255, 255, 0]
  else if color = "white" then [255, 255, 255]
  else if color = "black" then [0, 0, 0]
  else current

/-- truncToInt models the Go conversion int(f) on a float64: truncation
    toward zero. -/
def truncToInt (f : α) : Int := if 0 ≤ f then ⌊f⌋ else ⌈f⌉

/-- float64ToInt from the draw package: if the truncated fractional part
    is below one half return int(f), otherwise return int(f + 1). -/
def float64ToInt (f : α) : Int :=
  if f - (truncToInt f : α) < 1 / 2 then truncToInt f else truncToInt (f + 1)

/-- getCell reads the color at buffer row i, column j. -/
def getCell (s : Screen) (i j : Nat) : Color := (s.getD i []).getD j []

/-- setCell models the Go assignment screen[i][j] = color. -/
def setCell (s : Screen) (i j : Nat) (c : Color) : Screen :=
  listModify (fun row => row.set j c) i s

/-- plot from the draw package: round both coordinates with float64ToInt,
    flip the row to YRES minus the rounded y minus 1, and write the
    current draw color only when both indices are in range; otherwise the
    screen is returned unchanged. -/
def plot (s : Screen) (c : Color) (x y : α) : Screen :=
  let newX := float64ToInt x
  let newY := YRES - float64ToInt y - 1
  if 0 ≤ newX ∧ newX < XRES ∧ 0 ≤ newY ∧ newY < YRES then
    setCell s newY.toNat newX.toNat c
  else s

/-- vertLoop is the vertical-line loop of DrawLine: plot (x, y) for y
    from the lower endpoint up to y1. -/
def vertLoop (c : Color) (x y1 : α) (y : α) (s : Screen) : Screen :=
  if h : y ≤ y1 then vertLoop c x y1 (y + 1) (plot s c x y) else s
termination_by (⌊y1 - y⌋ + 1).toNat
decreasing_by
  rw [show y1 - (y + 1) = y1 - y - 1 by ring]
  exact toNat_floor_sub_one_lt (sub_nonneg.2 h)

/-- octant1Loop is the DrawLine loop for slopes in [0, 1]: plot, step y
    and add 2B to d when d is positive, then always step x and add 2A. -/
def octant1Loop (c : Color) (x1 y1 A B : α) (x y d : α) (s : Screen) : Screen :=
  if h : x ≤ x1 ∧ y ≤ y1 then
    let s2 := plot s c x y
    if 0 < d then octant1Loop c x1 y1 A B (x + 1) (y + 1) (d + 2 * B + 2 * A) s2
    else octant1Loop c x1 y1 A B (x + 1) y (d + 2 * A) s2
  else s
termination_by (⌊x1 - x⌋ + 1).toNat
decreasing_by
  all_goals rw [show x1 - (x + 1) = x1 - x - 1 by ring]
  all_goals exact toNat_floor_sub_one_lt (sub_nonneg.2 h.1)

/-- octant2Loop is the DrawLine loop for slopes above 1: plot, step x and
    add 2A to d when d is negative, then always step y and add 2B. -/
def octant2Loop (c : Color) (x1 y1 A B : α) (x y d : α) (s : Screen) : Screen :=
  if h : x ≤ x1 ∧ y ≤ y1 then
    let s2 := plot s c x y
    if d < 0 then octant2Loop c x1 y1 A B (x + 1) (y + 1) (d + 2 * A + 2 * B) s2
    else octant2Loop c x1 y1 A B x (y + 1) (d + 2 * B) s2
  else s
termination_by (⌊y1 - y⌋ + 1).toNat
decreasing_by
  all_goals rw [show y1 - (y + 1) = y1 - y - 1 by ring]
  all_goals exact toNat_floor_sub_one_lt (sub_nonneg.2 h.2)

/-- octant8Loop is the DrawLine loop for slopes in [-1, 0): plot, step y
    down and subtract 2B from d when d is negative, then always step x
    and add 2A. -/
def octant8Loop (c : Color) (x1 y1 A B : α) (x y d : α) (s : Screen) : Screen :=
  if h : x ≤ x1 ∧ y1 ≤ y then
    let s2 := plot s c x y
    if d < 0 then octant8Loop c x1 y1 A B (x + 1) (y - 1) (d - 2 * B + 2 * A) s2
    else octant8Loop c x1 y1 A B (x + 1) y (d + 2 * A) s2
  else s
termination_by (⌊x1 - x⌋ + 1).toNat
decreasing_by
  all_goals rw [show x1 - (x + 1) = x1 - x - 1 by ring]
  all_goals exact toNat_floor_sub_one_lt (sub_nonneg.2 h.1)

/-- octant7Loop is the DrawLine loop for slopes below -1: plot, step x
    and add 2A to d when d is positive, then always step y down and
    subtract 2B. -/
def octant7Loop (c : Color) (x1 y1 A B : α) (x y d : α) (s : Screen) : Screen :=
  if h : x ≤ x1 ∧ y1 ≤ y then
    let s2 := plot s c x y
    if 0 < d then octant7Loop c x1 y1 A B (x + 1) (y - 1) (d + 2 * A - 2 * B) s2
    else octant7Loop c x1 y1 A B x (y - 1) (d - 2 * B) s2
  else s
termination_by (⌊y - y1⌋ + 1).toNat
decreasing_by
  all_goals rw [show y - 1 - y1 = y - y1 - 1 by ring]
  all_goals exact toNat_floor_sub_one_lt (sub_nonneg.2 h.2)

/-- DrawLine from the draw package: swap the endpoints so scanning is
    left to right, handle vertical lines separately, and otherwise run
    the four slope-range branches in sequence exactly as the Go code
    does (at most one of them fires because the ranges are disjoint). -/
def DrawLine (c : Color) (s : Screen) (px0 py0 px1 py1 : α) : Screen :=
  let x0 := if px1 < px0 then px1 else px0
  let y0 := if px1 < px0 then py1 else py0
  let x1 := if px1 < px0 then px0 else px1
  let y1 := if px1 < px0 then py0 else py1
  let A := y1 - y0
  let B := x0 - x1
  let x := x0
  let y := y0
  if B = 0 then
    let yy0 := if y1 < y0 then y1 else y0
    let yy1 := if y1 < y0 then y0 else y1
    vertLoop c x yy1 yy0 s
  else
    let slope := A / (-B)
    let s1 := if 0 ≤ slope ∧ slope ≤ 1 then octant1Loop c x1 y1 A B x y (2 * A + B) s else s
    let s2 := if 1 < slope then octant2Loop c x1 y1 A B x y (A + 2 * B) s1 else s1
    let s3 := if slope < 0 ∧ -1 ≤ slope then octant8Loop c x1 y1 A B x y (2 * A - B) s2 else s2
    let s4 := if slope < -1 then octant7Loop c x1 y1 A B x y (A - 2 * B) s3 else s3
    s4

/-- drawLinesAux is the loop of DrawLines: while i is below the column
    count minus one, extract columns i and i + 1, draw the line between
    their x-y projections, and advance i by two. -/
def drawLinesAux (c : Color) (edges : Mat α) (s : Screen) (i : Nat) : Screen :=
  if h : i < (edges.headD []).length - 1 then
    let point := ExtractColumn edges i
    let nextPoint := ExtractColumn edges (i + 1)
    drawLinesAux c edges
      (DrawLine c s (point.getD 0 0) (point.getD 1 0)
        (nextPoint.getD 0 0) (nextPoint.getD 1 0)) (i + 2)
  else s
termination_by (edges.headD []).length - 1 - i
decreasing_by omega

/-- DrawLines from the draw package: run the pairwise drawing loop from
    index zero. -/
def DrawLines (c : Color) (edges : Mat α) (s : Screen) : Screen :=
  drawLinesAux c edges s 0

/-- AddPoint from the draw package: append x, y, z and the homogeneous 1
    to rows 0, 1, 2 and 3 of the edge matrix. -/
def AddPoint (m : Mat α) (x y z : α) : Mat α :=
  listModify (fun row => row ++ [(1 : α)]) 3
    (listModify (fun row => row ++ [z]) 2
      (listModify (fun row => row ++ [y]) 1
        (listModify (fun row => row ++ [x]) 0 m)))

/-- AddEdge from the draw package: append the two endpoint columns of an
    edge (the Go function receives the six coordinates variadically). -/
def AddEdge (m : Mat α) (x0 y0 z0 x1 y1 z1 : α) : Mat α :=
  AddPoint (AddPoint m x0 y0 z0) x1 y1 z1

/-- CubicEval from the draw package, with its four-iteration loop over
    the exponent i = 3, 2, 1, 0 unrolled; coefficients are ordered
    highest degree first, and each sits in a one-column row. -/
def CubicEval (x : α) (coefs : Mat α) : α :=
  0 + (coefs.getD 0 []).getD 0 0 * x ^ 3 + (coefs.getD 1 []).getD 0 0 * x ^ 2
    + (coefs.getD 2 []).getD 0 0 * x ^ 1 + (coefs.getD 3 []).getD 0 0 * x ^ 0

/-- generateCurveCoefs from the draw package: build the one-column matrix
    of control values, left-multiply it by the named basis matrix through
    MultiplyMatrices, and return the replaced second operand.  An unknown
    curve type leaves the basis nil, as in the Go code. -/
def generateCurveCoefs (p0 p1 p2 p3 : α) (curveType : String) : Mat α :=
  let coefGenerator : Mat α :=
    if curveType = "hermite" then MakeHermite
    else if curveType = "bezier" then MakeBezier
    else []
  let m : Mat α := [[p0], [p1], [p2], [p3]]
  (MultiplyMatrices coefGenerator m).2

/-- AddCurve from the draw package: generate per-axis cubic coefficients,
    then append one point per loop sample of t from 0 to 1. -/
def AddCurve (m : Mat α) (x0 y0 x1 y1 x2 y2 x3 y3 step : α) (curveType : String) : Mat α :=
  let xCoefs := generateCurveCoefs x0 x1 x2 x3 curveType
  let yCoefs := generateCurveCoefs y0 y1 y2 y3 curveType
  (stepRange 1 step 0).foldl
    (fun acc t => AddPoint acc (CubicEval t xCoefs) (CubicEval t yCoefs) 0) m

/-- AddBox from the draw package: the twelve edges of the axis-aligned
    prism, appended in source order. -/
def AddBox (m : Mat α) (x y z width height depth : α) : Mat α :=
  let m := AddEdge m x y z (x + width) y z
  let m := AddEdge m x y z x (y - height) z
  let m := AddEdge m x y z x y (z - depth)
  let m := AddEdge m x (y - height) z x (y - height) (z - depth)
  let m := AddEdge m x (y - height) z (x + width) (y - height) z
  let m := AddEdge m x (y - height) (z - depth) (x + width) (y - height) (z - depth)
  let m := AddEdge m (x + width) (y - height) z (x + width) (y - height) (z - depth)
  let m := AddEdge m x y (z - depth) (x + width) y (z - depth)
  let m := AddEdge m x y (z - depth) x (y - height) (z - depth)
  let m := AddEdge m (x + width) y z (x + width) (y - height) z
  let m := AddEdge m (x + width) y z (x + width) y (z - depth)
  let m := AddEdge m (x + width) y (z - depth) (x + width) (y - height) (z - depth)
  m

end DrawPackage

/-- AddCircle from the draw package: sample t from 0 to 1 in steps of
    0.001 and append one point per sample on the circle of radius r
    around (cx, cy) with z fixed to 0.  The third variadic parameter is
    discarded by the Go code (bound to the blank identifier).  Under the
    exact-arithmetic loop model the sampling includes t = 1 (1001
    samples); the compiled float64 loop stops after 1000 samples because
    the accumulated counter exceeds 1 to IEEE rounding, a divergence this
    embedding does not capture. -/
noncomputable def AddCircle (m : Mat Real) (cx cy cz r : Real) : Mat Real :=
  (stepRange 1 (1 / 1000) 0).foldl
    (fun acc t => AddPoint acc (r * Real.cos (2 * Real.pi * t) + cx)
      (r * Real.sin (2 * Real.pi * t) + cy) 0) m

/-- GenerateSphere from the draw package: the nested parametric loops,
    i from 0 to 1 and j from 0 to 0.5 in steps of 0.01, appending one
    surface point per sample. -/
noncomputable def GenerateSphere (cx cy cz r : Real) : List (List Real) :=
  (stepRange 1 (1 / 100) 0).foldl (fun points i =>
    let fi := 2 * Real.pi * i
    (stepRange (1 / 2) (1 / 100) 0).foldl (fun pts j =>
      let theta := 2 * Real.pi * j
      pts ++ [[r * Real.cos theta + cx,
               r * Real.sin theta * Real.cos fi + cy,
               r * Real.sin theta * Real.sin fi + cz]]) points) []

/-- AddSphere from the draw package: append, for every generated sphere
    point p, the degenerate edge from p to p plus (1, 1, 1). -/
noncomputable def AddSphere (m : Mat Real) (cx cy cz r : Real) : Mat Real :=
  (GenerateSphere cx cy cz r).foldl (fun acc p =>
    AddEdge acc (p.getD 0 0) (p.getD 1 0) (p.getD 2 0)
      (p.getD 0 0 + 1) (p.getD 1 0 + 1) (p.getD 2 0 + 1)) m

/-- GenerateTorus from the draw package: nested loops with both i and j
    from 0 to 1 in steps of 0.01.  The Go parameter list binds the fourth
    argument as r2 and the fifth as r1. -/
noncomputable def GenerateTorus (cx cy cz r2 r1 : Real) : List (List Real) :=
  (stepRange 1 (1 / 100) 0).foldl (fun points i =>
    let fi := 2 * Real.pi * i
    (stepRange 1 (1 / 100) 0).foldl (fun pts j =>
      let theta := 2 * Real.pi * j
      pts ++ [[Real.cos fi * (r2 * Real.cos theta + r1) + cx,
               r2 * Real.sin theta + cy,
               -1 * Real.sin fi * (r2 * Real.cos theta + r1) + cz]]) points) []

/-- AddTorus from the draw package: append, for every generated torus
    point p, the degenerate edge from p to p plus (1, 1, 1). -/
noncomputable def AddTorus (m : Mat Real) (cx cy cz r1 r2 : Real) : Mat Real :=
  (GenerateTorus cx cy cz r1 r2).foldl (fun acc p =>
    AddEdge acc (p.getD 0 0) (p.getD 1 0) (p.getD 2 0)
      (p.getD 0 0 + 1) (p.getD 1 0 + 1) (p.getD 2 0 + 1)) m

/-- composeStep models the transform-composition branch of ParseFile in
    parser/parser.go: when the running transform is empty the step matrix
    is adopted, otherwise MultiplyMatrices is called with the step matrix
    as first pointer and the running transform as second pointer, and the
    running transform becomes the replaced second pointee. -/
def composeStep {α : Type} [LinearOrderedField α] [FloorRing α]
    (transform stepTransform : Mat α) : Mat α :=
  if transform.length = 0 then stepTransform
  else (MultiplyMatrices stepTransform transform).2

/- ------------------------------------------------------------------ -/
/- Claim theorems                                                      -/
/- ------------------------------------------------------------------ -/

/-- C3: plot rounds each coordinate by round half up: for every
    nonnegative input f, float64ToInt f equals the floor of f plus one
    half, so a fractional part below one half rounds down and any other
    fractional part rounds up. -/
theorem claim_C3_round_half_up {α : Type} [LinearOrderedField α] [FloorRing α]
    (f : α) (hf : 0 ≤ f) : float64ToInt f = ⌊f + 1 / 2⌋ := by
  have htr : truncToInt f = ⌊f⌋ := if_pos hf
  unfold float64ToInt
  rw [htr]
  by_cases hlt : f - (⌊f⌋ : α) < 1 / 2
  · rw [if_pos hlt]
    symm
    rw [Int.floor_eq_iff]
    constructor
    · have := Int.floor_le f
      linarith
    · push_cast
      linarith
  · rw [if_neg hlt]
    have hge : (1 : α) / 2 ≤ f - (⌊f⌋ : α) := le_of_not_lt hlt
    have h1 : truncToInt (f + 1) = ⌊f + 1⌋ := if_pos (by linarith)
    rw [h1, Int.floor_add_one]
    symm
    rw [Int.floor_eq_iff]
    constructor
    · push_cast
      linarith
    · have := Int.lt_floor_add_one f
      push_cast
      linarith

/-- Witness for C3 at the concrete input seven halves. -/
theorem claim_C3_round_half_up_witness :
    (0 : ℚ) ≤ 7 / 2 ∧ float64ToInt ((7 : ℚ) / 2) = ⌊(7 : ℚ) / 2 + 1 / 2⌋ :=
  ⟨by norm_num, claim_C3_round_half_up ((7 : ℚ) / 2) (by norm_num)⟩

/-- Rect m rows cols states that m has the given number of rows and that
    every row has the given length. -/
def Rect {α : Type} (m : Mat α) (rows cols : Nat) : Prop :=
  m.length = rows ∧ ∀ row ∈ m, row.length = cols

/-- matEntry reads entry (i, j) of a list matrix, with zero as the
    out-of-range default. -/
def matEntry {α : Type} [LinearOrderedField α] (m : Mat α) (i j : Nat) : α :=
  (m.getD i []).getD j 0

section ProductLemmas

variable {α : Type} [LinearOrderedField α] [FloorRing α]

theorem getD_of_lt {β : Type} (l : List β) (i : Nat) (d : β) (h : i < l.length) :
    l.getD i d = l[i] := by
  rw [List.getD_eq_getElem?_getD, List.getElem?_eq_getElem h]
  rfl

theorem getD_mem_of_lt {β : Type} (l : List β) (i : Nat) (d : β) (h : i < l.length) :
    l.getD i d ∈ l := by
  rw [getD_of_lt l i d h]
  exact List.getElem_mem h

theorem getD_map_of_lt {β γ : Type} (f : β → γ) (l : List β) (i : Nat) (d : γ) (dd : β)
    (h : i < l.length) : (l.map f).getD i d = f (l.getD i dd) := by
  rw [getD_of_lt _ i d (by simpa using h), getD_of_lt l i dd h, List.getElem_map]

theorem getD_range_map {γ : Type} (f : Nat → γ) (p i : Nat) (d : γ) (h : i < p) :
    ((List.range p).map f).getD i d = f i := by
  rw [getD_map_of_lt f _ i d 0 (by simpa using h)]
  congr 1
  rw [getD_of_lt _ i 0 (by simpa using h)]
  simp

theorem foldl_add_eq_sum (n : Nat) (f : Nat → α) (a : α) :
    (List.range n).foldl (fun acc i => acc + f i) a = a + ∑ k ∈ Finset.range n, f k := by
  induction n generalizing a with
  | zero => simp
  | succ n ih =>
      rw [List.range_succ, List.foldl_append, ih, Finset.sum_range_succ]
      simp [add_assoc]

theorem dot_eq_sum (x y : List α) :
    dot x y = ∑ k ∈ Finset.range x.length, x.getD k 0 * y.getD k 0 := by
  unfold dot
  rw [foldl_add_eq_sum]
  simp

/-- The head length of a rectangular nonempty matrix is its column count. -/
theorem headD_length_of_rect (b : Mat α) (n p : Nat) (hb : Rect b n p) (hn : 0 < n) :
    (b.headD []).length = p := by
  obtain ⟨hlen, hrows⟩ := hb
  cases b with
  | nil => simp at hlen; omega
  | cons r rs => exact hrows r (by simp)

theorem matMul_length (a b : Mat α) : (matMul a b).length = a.length := by
  simp [matMul]

theorem matMul_rows (a b : Mat α) (n p : Nat) (hb : Rect b n p) (hn : 0 < n) :
    ∀ row ∈ matMul a b, row.length = p := by
  intro row hrow
  simp only [matMul, List.mem_map] at hrow
  obtain ⟨r, hr, hrr⟩ := hrow
  rw [← hrr]
  simp only [List.length_map, List.length_range]
  exact headD_length_of_rect b n p hb hn

/-- Entry formula for the product built inside MultiplyMatrices: entry
    (i, j) is the dot product of row i of the first operand with column
    j of the second. -/
theorem matMul_entry (a b : Mat α) (m n p : Nat) (ha : Rect a m n) (hb : Rect b n p)
    (hn : 0 < n) (i j : Nat) (hi : i < m) (hj : j < p) :
    matEntry (matMul a b) i j = ∑ k ∈ Finset.range n, matEntry a i k * matEntry b k j := by
  obtain ⟨haLen, haRows⟩ := ha
  obtain ⟨hbLen, hbRows⟩ := hb
  have hiLen : i < a.length := by omega
  have hrowMem : a.getD i [] ∈ a := getD_mem_of_lt a i [] hiLen
  have hrowLen : (a.getD i []).length = n := haRows _ hrowMem
  have hhead : (b.headD []).length = p := headD_length_of_rect b n p ⟨hbLen, hbRows⟩ hn
  unfold matEntry
  rw [show (matMul a b).getD i [] =
      (List.range (b.headD []).length).map (fun j => dot (a.getD i []) (ExtractColumn b j)) by
    unfold matMul
    exact getD_map_of_lt _ a i [] [] hiLen]
  rw [hhead, getD_range_map _ p j 0 hj, dot_eq_sum, hrowLen]
  apply Finset.sum_congr rfl
  intro k hk
  have hkn : k < n := Finset.mem_range.1 hk
  have hkb : k < b.length := by omega
  congr 1
  unfold ExtractColumn
  rw [getD_map_of_lt _ b k 0 [] hkb]

end ProductLemmas

/-- C2: MultiplyMatrices computes the product of its operands into the
    second pointee — entry (i, j) is the dot product of row i of a with
    column j of b — with the resulting shape m by p, and leaves the first
    pointee unchanged. -/
theorem claim_C2_multiply_replaces_second {α : Type} [LinearOrderedField α] [FloorRing α]
    (a b : Mat α) (m n p : Nat) (ha : Rect a m n) (hb : Rect b n p) (hn : 0 < n) :
    (MultiplyMatrices a b).1 = a ∧
    (MultiplyMatrices a b).2.length = m ∧
    (∀ row ∈ (MultiplyMatrices a b).2, row.length = p) ∧
    ∀ i j, i < m → j < p →
      matEntry (MultiplyMatrices a b).2 i j =
        ∑ k ∈ Finset.range n, matEntry a i k * matEntry b k j := by
  refine ⟨rfl, ?_, ?_, ?_⟩
  · rw [show (MultiplyMatrices a b).2 = matMul a b from rfl, matMul_length, ha.1]
  · exact matMul_rows a b n p hb hn
  · intro i j hi hj
    exact matMul_entry a b m n p ha hb hn i j hi hj

/-- Witness for C2 on a concrete pair of two-by-two rational matrices. -/
theorem claim_C2_multiply_replaces_second_witness :
    (Rect ([[1, 2], [3, 4]] : Mat ℚ) 2 2 ∧ Rect ([[5, 6], [7, 8]] : Mat ℚ) 2 2 ∧ 0 < 2) ∧
    ((MultiplyMatrices ([[1, 2], [3, 4]] : Mat ℚ) [[5, 6], [7, 8]]).1 = [[1, 2], [3, 4]] ∧
     (MultiplyMatrices ([[1, 2], [3, 4]] : Mat ℚ) [[5, 6], [7, 8]]).2.length = 2 ∧
     (∀ row ∈ (MultiplyMatrices ([[1, 2], [3, 4]] : Mat ℚ) [[5, 6], [7, 8]]).2,
        row.length = 2) ∧
     ∀ i j, i < 2 → j < 2 →
       matEntry (MultiplyMatrices ([[1, 2], [3, 4]] : Mat ℚ) [[5, 6], [7, 8]]).2 i j =
         ∑ k ∈ Finset.range 2,
           matEntry ([[1, 2], [3, 4]] : Mat ℚ) i k * matEntry ([[5, 6], [7, 8]] : Mat ℚ) k j) :=
  ⟨⟨⟨by decide, by decide⟩, ⟨by decide, by decide⟩, by decide⟩,
    claim_C2_multiply_replaces_second ([[1, 2], [3, 4]] : Mat ℚ) [[5, 6], [7, 8]] 2 2 2
      ⟨by decide, by decide⟩ ⟨by decide, by decide⟩ (by decide)⟩

/-- C1 counterexample: composing a translation transform with a dilation
    step does not produce transform times step.  The left side is the
    parser composition; the right side is the product transform times
    step as MultiplyMatrices itself computes it into its second operand.
    They differ at entry (0, 3): 2 versus 1. -/
theorem claim_C1_counterexample :
    composeStep ([[1, 0, 0, 1], [0, 1, 0, 0], [0, 0, 1, 0], [0, 0, 0, 1]] : Mat ℚ)
        [[2, 0, 0, 0], [0, 1, 0, 0], [0, 0, 1, 0], [0, 0, 0, 1]] ≠
      (MultiplyMatrices ([[1, 0, 0, 1], [0, 1, 0, 0], [0, 0, 1, 0], [0, 0, 0, 1]] : Mat ℚ)
        [[2, 0, 0, 0], [0, 1, 0, 0], [0, 0, 1, 0], [0, 0, 0, 1]]).2 := by
  norm_num [composeStep, MultiplyMatrices, matMul, ExtractColumn, dot, List.range_succ]

/-- C1 amended: composing a script transform command multiplies the step
    matrix on the left: for a nonempty running transform T and step S the
    new transform is the product S times T, entry (i, j) being the dot
    product of row i of S with column j of T; when no transform exists
    yet the step matrix is adopted unchanged. -/
theorem claim_C1_compose_step {α : Type} [LinearOrderedField α] [FloorRing α]
    (T S : Mat α) :
    (T.length = 0 → composeStep T S = S) ∧
    (Rect T 4 4 → Rect S 4 4 →
      composeStep T S = (MultiplyMatrices S T).2 ∧
      ∀ i j, i < 4 → j < 4 →
        matEntry (composeStep T S) i j =
          ∑ k ∈ Finset.range 4, matEntry S i k * matEntry T k j) := by
  constructor
  · intro h
    unfold composeStep
    rw [if_pos h]
  · intro hT hS
    have hne : ¬ T.length = 0 := by
      rw [hT.1]
      omega
    have hrw : composeStep T S = matMul S T := by
      unfold composeStep
      rw [if_neg hne]
      rfl
    refine ⟨hrw, ?_⟩
    intro i j hi hj
    rw [hrw]
    exact matMul_entry S T 4 4 4 hS hT (by omega) i j hi hj

/-- Witness for C1 on concrete four-by-four rational matrices: the
    composition branch with both rectangularity hypotheses discharged. -/
theorem claim_C1_compose_step_witness :
    composeStep ([[1, 0, 0, 1], [0, 1, 0, 0], [0, 0, 1, 0], [0, 0, 0, 1]] : Mat ℚ)
        [[2, 0, 0, 0], [0, 1, 0, 0], [0, 0, 1, 0], [0, 0, 0, 1]] =
      (MultiplyMatrices ([[2, 0, 0, 0], [0, 1, 0, 0], [0, 0, 1, 0], [0, 0, 0, 1]] : Mat ℚ)
        [[1, 0, 0, 1], [0, 1, 0, 0], [0, 0, 1, 0], [0, 0, 0, 1]]).2 :=
  ((claim_C1_compose_step ([[1, 0, 0, 1], [0, 1, 0, 0], [0, 0, 1, 0], [0, 0, 0, 1]] : Mat ℚ)
      [[2, 0, 0, 0], [0, 1, 0, 0], [0, 0, 1, 0], [0, 0, 0, 1]]).2
    ⟨by decide, by decide⟩ ⟨by decide, by decide⟩).1

/-- C6: MakeBezier and MakeHermite return exactly the stated constant
    four-by-four matrices, value for value. -/
theorem claim_C6_basis_matrices :
    (MakeBezier : Mat ℚ) = [[-1, 3, -3, 1], [3, -6, 3, 0], [-3, 3, 0, 0], [1, 0, 0, 0]] ∧
    (MakeHermite : Mat ℚ) = [[2, -2, 1, 1], [-3, 3, -2, -1], [0, 0, 1, 0], [1, 0, 0, 0]] := by
  constructor <;> rfl

theorem MakeRotX_eval (theta : Real) :
    MakeRotX theta =
      [[1, 0, 0, 0],
       [0, Real.cos (theta / 180 * Real.pi), -Real.sin (theta / 180 * Real.pi), 0],
       [0, Real.sin (theta / 180 * Real.pi), Real.cos (theta / 180 * Real.pi), 0],
       [0, 0, 0, 1]] := rfl

theorem MakeRotY_eval (theta : Real) :
    MakeRotY theta =
      [[Real.cos (theta / 180 * Real.pi), 0, Real.sin (theta / 180 * Real.pi), 0],
       [0, 1, 0, 0],
       [-Real.sin (theta / 180 * Real.pi), 0, Real.cos (theta / 180 * Real.pi), 0],
       [0, 0, 0, 1]] := rfl

theorem MakeRotZ_eval (theta : Real) :
    MakeRotZ theta =
      [[Real.cos (theta / 180 * Real.pi), -Real.sin (theta / 180 * Real.pi), 0, 0],
       [Real.sin (theta / 180 * Real.pi), Real.cos (theta / 180 * Real.pi), 0, 0],
       [0, 0, 1, 0],
       [0, 0, 0, 1]] := rfl

/-- C7: every rotation constructor converts its degree argument to
    radians as theta times pi over 180 and overwrites only its plane of
    the four-by-four identity, with the right-handed sign convention:
    rotX places cos, minus sin, sin, cos at rows and columns 1 and 2,
    rotY places cos at (0,0) and (2,2), sin at (0,2), minus sin at (2,0),
    and rotZ places cos at (0,0) and (1,1), minus sin at (0,1), sin at
    (1,0). -/
theorem claim_C7_rotation_matrices (theta : Real) :
    MakeRotX theta =
      [[1, 0, 0, 0],
       [0, Real.cos (theta * Real.pi / 180), -Real.sin (theta * Real.pi / 180), 0],
       [0, Real.sin (theta * Real.pi / 180), Real.cos (theta * Real.pi / 180), 0],
       [0, 0, 0, 1]] ∧
    MakeRotY theta =
      [[Real.cos (theta * Real.pi / 180), 0, Real.sin (theta * Real.pi / 180), 0],
       [0, 1, 0, 0],
       [-Real.sin (theta * Real.pi / 180), 0, Real.cos (theta * Real.pi / 180), 0],
       [0, 0, 0, 1]] ∧
    MakeRotZ theta =
      [[Real.cos (theta * Real.pi / 180), -Real.sin (theta * Real.pi / 180), 0, 0],
       [Real.sin (theta * Real.pi / 180), Real.cos (theta * Real.pi / 180), 0, 0],
       [0, 0, 1, 0],
       [0, 0, 0, 1]] := by
  have harg : theta / 180 * Real.pi = theta * Real.pi / 180 := by ring
  refine ⟨?_, ?_, ?_⟩
  · rw [MakeRotX_eval, harg]
  · rw [MakeRotY_eval, harg]
  · rw [MakeRotZ_eval, harg]

section StepRangeLemmas

variable {α : Type} [LinearOrderedField α] [FloorRing α]

theorem sub_step_div (limit step t : α) (hne : step ≠ 0) :
    (limit - (t + step)) / step = (limit - t) / step - 1 := by
  rw [show limit - (t + step) = limit - t - step by ring, sub_div, div_self hne]

theorem floor_sub_one_int (z : α) : ⌊z - 1⌋ = ⌊z⌋ - 1 := by
  have h := Int.floor_sub_int z 1
  simpa using h

/-- Closed form of the Go float loop: with a positive step, the visited
    counter values are start plus k times step for k from zero through
    the floor of the span divided by the step. -/
theorem stepRange_eq (limit step t : α) :
    0 < step →
    stepRange limit step t =
      (List.range (⌊(limit - t) / step⌋ + 1).toNat).map (fun k : Nat => t + (k : α) * step) := by
  induction t using stepRange.induct limit step with
  | case1 t h ih =>
      intro hs
      rw [stepRange, dif_pos h, ih hs]
      have hz : 0 ≤ (limit - t) / step := div_nonneg (by linarith [h.2]) hs.le
      have hfl : 0 ≤ ⌊(limit - t) / step⌋ := Int.floor_nonneg.2 hz
      have harg : (limit - (t + step)) / step = (limit - t) / step - 1 :=
        sub_step_div limit step t (ne_of_gt hs)
      have hN : (⌊(limit - t) / step⌋ + 1).toNat =
          (⌊(limit - (t + step)) / step⌋ + 1).toNat + 1 := by
        rw [harg, floor_sub_one_int]
        omega
      rw [hN, List.range_succ_eq_map, List.map_cons, List.map_map]
      have hfun : ((fun k : Nat => t + (k : α) * step) ∘ Nat.succ) =
          fun k : Nat => t + step + (k : α) * step := by
        funext k
        simp only [Function.comp_apply]
        push_cast
        ring
      rw [hfun]
      simp
  | case2 t h =>
      intro hs
      have hlt : limit < t := by
        by_contra hc
        exact h ⟨hs, by linarith [not_lt.1 hc]⟩
      have hz : (limit - t) / step < 0 := div_neg_of_neg_of_pos (by linarith) hs
      have hfl : ⌊(limit - t) / step⌋ < 0 := by
        rw [Int.floor_lt]
        exact_mod_cast hz
      rw [stepRange, dif_neg h]
      rw [show (⌊(limit - t) / step⌋ + 1).toNat = 0 by omega]
      simp

end StepRangeLemmas

/-- Appending points through a fold of AddPoint extends the four rows of
    the edge matrix by the per-sample coordinate lists. -/
theorem foldl_AddPoint_rows {α : Type} [LinearOrderedField α]
    (ts : List α) (fx fy fz : α → α) (r0 r1 r2 r3 : List α) :
    ts.foldl (fun m t => AddPoint m (fx t) (fy t) (fz t)) [r0, r1, r2, r3] =
      [r0 ++ ts.map fx, r1 ++ ts.map fy, r2 ++ ts.map fz,
       r3 ++ ts.map (fun _ => 1)] := by
  induction ts generalizing r0 r1 r2 r3 with
  | nil => simp
  | cons t ts ih =>
      rw [List.foldl_cons,
        show AddPoint [r0, r1, r2, r3] (fx t) (fy t) (fz t) =
          [r0 ++ [fx t], r1 ++ [fy t], r2 ++ [fz t], r3 ++ [(1 : α)]] from rfl,
        ih]
      simp

/-- In the exact-arithmetic loop model, the circle loop visits the 1001
    samples k over 1000 for k from 0 through 1000 (the compiled float64
    loop stops at 1000 samples; see the AddCircle comment). -/
theorem circle_ts :
    stepRange (1 : Real) (1 / 1000) 0 =
      (List.range 1001).map (fun k : Nat => (k : Real) / 1000) := by
  rw [stepRange_eq _ _ _ (by norm_num)]
  rw [show ((1 : Real) - 0) / (1 / 1000) = 1000 by norm_num]
  rw [show ((⌊(1000 : Real)⌋ + 1).toNat) = 1001 by
    rw [show ⌊(1000 : Real)⌋ = (1000 : Int) by norm_num]
    decide]
  have hfun : (fun k : Nat => (0 : Real) + (k : Real) * (1 / 1000)) =
      fun k : Nat => (k : Real) / 1000 := by
    funext k
    ring
  rw [hfun]

/-- AddCircle on the empty edge matrix produces exactly one column per
    sample of the exact-arithmetic loop model, with the circle
    coordinates and z fixed to zero. -/
theorem AddCircle_empty (cx cy cz r : Real) :
    AddCircle [[], [], [], []] cx cy cz r =
      [(List.range 1001).map (fun k : Nat => r * Real.cos (2 * Real.pi * ((k : Real) / 1000)) + cx),
       (List.range 1001).map (fun k : Nat => r * Real.sin (2 * Real.pi * ((k : Real) / 1000)) + cy),
       (List.range 1001).map (fun _ : Nat => (0 : Real)),
       (List.range 1001).map (fun _ : Nat => (1 : Real))] := by
  unfold AddCircle
  rw [circle_ts,
    foldl_AddPoint_rows ((List.range 1001).map (fun k : Nat => (k : Real) / 1000))
      (fun t => r * Real.cos (2 * Real.pi * t) + cx)
      (fun t => r * Real.sin (2 * Real.pi * t) + cy) (fun _ => 0) [] [] [] []]
  simp only [List.map_map, List.nil_append]
  rfl

section CellLemmas

theorem listModify_length {β : Type} (f : β → β) (i : Nat) (l : List β) :
    (listModify f i l).length = l.length := by
  induction l generalizing i with
  | nil => cases i <;> rfl
  | cons r rs ih =>
      cases i with
      | zero => rfl
      | succ n => simp [listModify, ih]

theorem listModify_of_le {β : Type} (f : β → β) (i : Nat) (l : List β)
    (h : l.length ≤ i) : listModify f i l = l := by
  induction l generalizing i with
  | nil => cases i <;> rfl
  | cons r rs ih =>
      cases i with
      | zero => simp at h
      | succ n =>
          simp only [List.length_cons] at h
          simp [listModify, ih n (by omega)]

theorem getD_listModify_eq {β : Type} (f : β → β) (i : Nat) (l : List β) (d : β)
    (h : i < l.length) : (listModify f i l).getD i d = f (l.getD i d) := by
  induction l generalizing i with
  | nil => simp at h
  | cons r rs ih =>
      cases i with
      | zero => rfl
      | succ n =>
          simp only [List.length_cons] at h
          simpa [listModify] using ih n (by omega)

theorem getD_listModify_ne {β : Type} (f : β → β) (i i2 : Nat) (l : List β) (d : β)
    (h : i ≠ i2) : (listModify f i l).getD i2 d = l.getD i2 d := by
  induction l generalizing i i2 with
  | nil => cases i <;> rfl
  | cons r rs ih =>
      cases i with
      | zero =>
          cases i2 with
          | zero => omega
          | succ n2 => rfl
      | succ n =>
          cases i2 with
          | zero => rfl
          | succ n2 => simpa [listModify] using ih n n2 (by omega)

theorem getD_set_eq {β : Type} (l : List β) (j : Nat) (v d : β) (h : j < l.length) :
    (l.set j v).getD j d = v := by
  induction l generalizing j with
  | nil => simp at h
  | cons r rs ih =>
      cases j with
      | zero => rfl
      | succ n =>
          simp only [List.length_cons] at h
          simpa [List.set] using ih n (by omega)

theorem getD_set_ne {β : Type} (l : List β) (j j2 : Nat) (v d : β) (h : j ≠ j2) :
    (l.set j v).getD j2 d = l.getD j2 d := by
  induction l generalizing j j2 with
  | nil => rfl
  | cons r rs ih =>
      cases j with
      | zero =>
          cases j2 with
          | zero => omega
          | succ n2 => rfl
      | succ n =>
          cases j2 with
          | zero => rfl
          | succ n2 => simpa [List.set] using ih n n2 (by omega)

theorem getCell_setCell_ne (s : Screen) (i j : Nat) (c : Color) (i2 j2 : Nat)
    (h : ¬(i2 = i ∧ j2 = j)) : getCell (setCell s i j c) i2 j2 = getCell s i2 j2 := by
  unfold getCell setCell
  by_cases hi : i2 = i
  · subst hi
    have hj : j ≠ j2 := by
      intro hj
      exact h ⟨rfl, hj.symm⟩
    by_cases hlen : i2 < s.length
    · rw [getD_listModify_eq _ _ _ _ hlen, getD_set_ne _ _ _ _ _ hj]
    · rw [listModify_of_le _ _ _ (by omega)]
  · rw [getD_listModify_ne _ _ _ _ _ (fun hc => hi hc.symm)]

theorem getCell_setCell_eq (s : Screen) (i j : Nat) (c : Color)
    (hi : i < s.length) (hj : j < (s.getD i []).length) :
    getCell (setCell s i j c) i j = c := by
  unfold getCell setCell
  rw [getD_listModify_eq _ _ _ _ hi, getD_set_eq _ _ _ _ hj]

end CellLemmas

/-- C4: plot writes the current draw color at column round(x) and flipped
    row YRES - 1 - round(y) only when both indices lie inside the screen
    bounds; when either is out of range the call returns the screen
    entirely unchanged, raising no error, so plot never writes outside
    the buffer. -/
theorem claim_C4_plot_clips {α : Type} [LinearOrderedField α] [FloorRing α]
    (s : Screen) (c : Color) (x y : α) :
    (¬(0 ≤ float64ToInt x ∧ float64ToInt x < XRES ∧
        0 ≤ YRES - float64ToInt y - 1 ∧ YRES - float64ToInt y - 1 < YRES) →
      plot s c x y = s) ∧
    ((0 ≤ float64ToInt x ∧ float64ToInt x < XRES ∧
        0 ≤ YRES - float64ToInt y - 1 ∧ YRES - float64ToInt y - 1 < YRES) →
      plot s c x y = setCell s (YRES - float64ToInt y - 1).toNat (float64ToInt x).toNat c ∧
      (∀ i j : Nat, ¬(i = (YRES - float64ToInt y - 1).toNat ∧ j = (float64ToInt x).toNat) →
        getCell (plot s c x y) i j = getCell s i j) ∧
      (s.length = 500 → (∀ row ∈ s, row.length = 500) →
        getCell (plot s c x y)
          (YRES - float64ToInt y - 1).toNat (float64ToInt x).toNat = c)) := by
  constructor
  · intro h
    unfold plot
    rw [if_neg h]
  · intro h
    have hplot : plot s c x y =
        setCell s (YRES - float64ToInt y - 1).toNat (float64ToInt x).toNat c := by
      unfold plot
      rw [if_pos h]
    refine ⟨hplot, ?_, ?_⟩
    · intro i j hne
      rw [hplot]
      exact getCell_setCell_ne s _ _ c i j hne
    · intro hlen hrows
      rw [hplot]
      have hXR : XRES = 500 := rfl
      have hYR : YRES = 500 := rfl
      obtain ⟨h1, h2, h3, h4⟩ := h
      have hi : (YRES - float64ToInt y - 1).toNat < s.length := by
        rw [hlen]
        omega
      have hrow : s.getD (YRES - float64ToInt y - 1).toNat [] ∈ s :=
        getD_mem_of_lt s _ [] hi
      have hj : (float64ToInt x).toNat <
          (s.getD (YRES - float64ToInt y - 1).toNat []).length := by
        rw [hrows _ hrow]
        omega
      exact getCell_setCell_eq s _ _ c hi hj

/-- Witness for C4: plotting at x = 600 on an empty screen is rejected by
    the bounds test and leaves the screen unchanged. -/
theorem claim_C4_plot_clips_witness :
    plot ([] : Screen) [7] (600 : ℚ) (0 : ℚ) = ([] : Screen) :=
  (claim_C4_plot_clips ([] : Screen) [7] (600 : ℚ) (0 : ℚ)).1 (by
    intro hcon
    have hx : float64ToInt (600 : ℚ) = 600 := by
      have h6 : truncToInt (600 : ℚ) = 600 := by
        unfold truncToInt
        rw [if_pos (by norm_num)]
        rw [show ((600 : ℚ)) = ((600 : Int) : ℚ) by norm_num, Int.floor_intCast]
      unfold float64ToInt
      rw [h6, if_pos (by norm_num)]
    rw [hx] at hcon
    have : (600 : Int) < XRES := hcon.2.1
    have hXR : XRES = 500 := rfl
    omega)

/-- EdgeInv is the edge-matrix invariant: four rows, rectangular, and
    every entry of the homogeneous bottom row equal to 1. -/
def EdgeInv {α : Type} [LinearOrderedField α] (m : Mat α) : Prop :=
  m.length = 4 ∧ (∀ row ∈ m, row.length = (m.headD []).length) ∧
    ∀ v ∈ m.getD 3 [], v = (1 : α)

theorem list_four {β : Type} : ∀ (l : List β), l.length = 4 → ∃ a b c d, l = [a, b, c, d]
  | [], h => by simp at h
  | [a], h => by simp at h
  | [a, b], h => by simp at h
  | [a, b, c], h => by simp at h
  | [a, b, c, d], _ => ⟨a, b, c, d, rfl⟩
  | a :: b :: c :: d :: e :: tl, h => by
      simp only [List.length_cons] at h
      omega

section InvariantLemmas

variable {α : Type} [LinearOrderedField α] [FloorRing α]

theorem AddPoint_inv {m : Mat α} {x y z : α} (h : EdgeInv m) :
    EdgeInv (AddPoint m x y z) := by
  obtain ⟨hlen, hrows, hones⟩ := h
  obtain ⟨r0, r1, r2, r3, rfl⟩ := list_four m hlen
  have heq : AddPoint [r0, r1, r2, r3] x y z =
      [r0 ++ [x], r1 ++ [y], r2 ++ [z], r3 ++ [(1 : α)]] := rfl
  rw [heq]
  have h1 := hrows r1 (by simp)
  have h2 := hrows r2 (by simp)
  have h3 := hrows r3 (by simp)
  simp only [List.headD_cons] at h1 h2 h3
  refine ⟨rfl, ?_, ?_⟩
  · intro row hrow
    simp only [List.mem_cons, List.not_mem_nil, or_false] at hrow
    rcases hrow with rfl | rfl | rfl | rfl <;>
      simp [List.length_append, h1, h2, h3]
  · intro v hv
    simp only [List.getD_cons_succ, List.getD_cons_zero] at hv ⊢
    rcases List.mem_append.1 hv with hv3 | hv1
    · exact hones v (by simpa using hv3)
    · simpa using hv1

theorem AddEdge_inv {m : Mat α} {x0 y0 z0 x1 y1 z1 : α} (h : EdgeInv m) :
    EdgeInv (AddEdge m x0 y0 z0 x1 y1 z1) :=
  AddPoint_inv (AddPoint_inv h)

theorem foldl_inv {β : Type} (g : Mat α → β → Mat α)
    (hg : ∀ m b, EdgeInv m → EdgeInv (g m b)) :
    ∀ (l : List β) (m : Mat α), EdgeInv m → EdgeInv (l.foldl g m) := by
  intro l
  induction l with
  | nil => intro m hm; exact hm
  | cons b bs ih => intro m hm; exact ih (g m b) (hg m b hm)

theorem headD_mem {β : Type} (l : List β) (d : β) (h : l ≠ []) : l.headD d ∈ l := by
  cases l with
  | nil => exact absurd rfl h
  | cons a tl => simp

theorem dot_unit3 (y : List α) : dot [0, 0, 0, 1] y = y.getD 3 0 := by
  show (List.range 4).foldl
    (fun output i => output + ([(0 : α), 0, 0, 1]).getD i 0 * y.getD i 0) 0 = y.getD 3 0
  rw [show (4 : Nat) = 3 + 1 from rfl, List.range_succ, List.range_succ, List.range_succ,
    List.range_succ, List.range_zero]
  simp

/-- Multiplying any four-row matrix with bottom row (0,0,0,1) into an
    edge matrix through MultiplyMatrices preserves the edge invariant. -/
theorem matMul_bottom_inv (T m : Mat α) (hT4 : T.length = 4)
    (hTbot : T.getD 3 [] = [0, 0, 0, 1]) (hm : EdgeInv m) : EdgeInv (matMul T m) := by
  obtain ⟨hmlen, hmrows, hmones⟩ := hm
  have hrect : Rect m 4 (m.headD []).length := ⟨hmlen, hmrows⟩
  have hrows4 : ∀ row ∈ matMul T m, row.length = (m.headD []).length :=
    matMul_rows T m 4 (m.headD []).length hrect (by omega)
  have hmmlen : (matMul T m).length = 4 := by rw [matMul_length, hT4]
  have hne : matMul T m ≠ [] := by
    intro hc
    rw [hc] at hmmlen
    simp at hmmlen
  have hhead : ((matMul T m).headD []).length = (m.headD []).length :=
    hrows4 _ (headD_mem _ [] hne)
  refine ⟨hmmlen, ?_, ?_⟩
  · intro row hrow
    rw [hrows4 row hrow, hhead]
  · intro v hv
    have hbot : (matMul T m).getD 3 [] =
        (List.range (m.headD []).length).map
          (fun j => dot (T.getD 3 []) (ExtractColumn m j)) := by
      unfold matMul
      exact getD_map_of_lt _ T 3 [] [] (by omega)
    rw [hbot, hTbot] at hv
    obtain ⟨j, hj, hjv⟩ := List.mem_map.1 hv
    have hjlt : j < (m.headD []).length := List.mem_range.1 hj
    rw [← hjv, dot_unit3]
    unfold ExtractColumn
    rw [getD_map_of_lt _ m 3 0 [] (by omega)]
    have hrow3 : m.getD 3 [] ∈ m := getD_mem_of_lt m 3 [] (by omega)
    have hlen3 : (m.getD 3 []).length = (m.headD []).length := hmrows _ hrow3
    exact hmones _ (getD_mem_of_lt _ j 0 (by omega))

theorem MakeTranslationMatrix_eval (x y z : α) :
    MakeTranslationMatrix x y z =
      [[1, 0, 0, x], [0, 1, 0, y], [0, 0, 1, z], [0, 0, 0, 1]] := rfl

theorem MakeDilationMatrix_eval (x y z : α) :
    MakeDilationMatrix x y z =
      [[x, 0, 0, 0], [0, y, 0, 0], [0, 0, z, 0], [0, 0, 0, 1]] := rfl

end InvariantLemmas

/-- C8: the homogeneous component of every edge-matrix column is always
    1: AddPoint appends (x,y,z,1) and preserves the invariant, every
    primitive generator preserves it, applying any four-by-four transform
    whose bottom row is (0,0,0,1) through MultiplyMatrices preserves it,
    and every transform constructor (translation, dilation, the three
    rotations) builds a matrix with bottom row (0,0,0,1). -/
theorem claim_C8_homogeneous_invariant :
    (∀ (m : Mat Real) (x y z : Real), EdgeInv m → EdgeInv (AddPoint m x y z)) ∧
    (∀ (m : Mat Real) (x0 y0 z0 x1 y1 z1 : Real),
      EdgeInv m → EdgeInv (AddEdge m x0 y0 z0 x1 y1 z1)) ∧
    (∀ (m : Mat Real) (cx cy cz r : Real), EdgeInv m → EdgeInv (AddCircle m cx cy cz r)) ∧
    (∀ (m : Mat Real) (x0 y0 x1 y1 x2 y2 x3 y3 step : Real) (curveType : String),
      EdgeInv m → EdgeInv (AddCurve m x0 y0 x1 y1 x2 y2 x3 y3 step curveType)) ∧
    (∀ (m : Mat Real) (x y z width height depth : Real),
      EdgeInv m → EdgeInv (AddBox m x y z width height depth)) ∧
    (∀ (m : Mat Real) (cx cy cz r : Real), EdgeInv m → EdgeInv (AddSphere m cx cy cz r)) ∧
    (∀ (m : Mat Real) (cx cy cz r1 r2 : Real),
      EdgeInv m → EdgeInv (AddTorus m cx cy cz r1 r2)) ∧
    (∀ (T m : Mat Real), T.length = 4 → T.getD 3 [] = [0, 0, 0, 1] → EdgeInv m →
      EdgeInv ((MultiplyMatrices T m).2)) ∧
    (∀ x y z : Real, (MakeTranslationMatrix x y z).length = 4 ∧
      (MakeTranslationMatrix x y z).getD 3 [] = [0, 0, 0, 1]) ∧
    (∀ x y z : Real, (MakeDilationMatrix x y z).length = 4 ∧
      (MakeDilationMatrix x y z).getD 3 [] = [0, 0, 0, 1]) ∧
    (∀ theta : Real, (MakeRotX theta).length = 4 ∧
      (MakeRotX theta).getD 3 [] = [0, 0, 0, 1]) ∧
    (∀ theta : Real, (MakeRotY theta).length = 4 ∧
      (MakeRotY theta).getD 3 [] = [0, 0, 0, 1]) ∧
    (∀ theta : Real, (MakeRotZ theta).length = 4 ∧
      (MakeRotZ theta).getD 3 [] = [0, 0, 0, 1]) := by
  refine ⟨fun m x y z h => AddPoint_inv h,
    fun m x0 y0 z0 x1 y1 z1 h => AddEdge_inv h, ?_, ?_, ?_, ?_, ?_, ?_, ?_, ?_, ?_, ?_, ?_⟩
  · intro m cx cy cz r h
    unfold AddCircle
    exact foldl_inv _ (fun m t hm => AddPoint_inv hm) _ m h
  · intro m x0 y0 x1 y1 x2 y2 x3 y3 step curveType h
    unfold AddCurve
    exact foldl_inv _ (fun m t hm => AddPoint_inv hm) _ m h
  · intro m x y z width height depth h
    unfold AddBox
    iterate 12 apply AddEdge_inv
    exact h
  · intro m cx cy cz r h
    unfold AddSphere
    exact foldl_inv _ (fun m p hm => AddEdge_inv hm) _ m h
  · intro m cx cy cz r1 r2 h
    unfold AddTorus
    exact foldl_inv _ (fun m p hm => AddEdge_inv hm) _ m h
  · intro T m hT4 hTbot hm
    exact matMul_bottom_inv T m hT4 hTbot hm
  · intro x y z
    rw [MakeTranslationMatrix_eval]
    exact ⟨rfl, rfl⟩
  · intro x y z
    rw [MakeDilationMatrix_eval]
    exact ⟨rfl, rfl⟩
  · intro theta
    rw [MakeRotX_eval]
    exact ⟨rfl, rfl⟩
  · intro theta
    rw [MakeRotY_eval]
    exact ⟨rfl, rfl⟩
  · intro theta
    rw [MakeRotZ_eval]
    exact ⟨rfl, rfl⟩

/-- Witness for C8: the empty four-row edge matrix satisfies the
    invariant and AddPoint preserves it there. -/
theorem claim_C8_homogeneous_invariant_witness :
    EdgeInv ([[], [], [], []] : Mat Real) ∧
    EdgeInv (AddPoint ([[], [], [], []] : Mat Real) 1 2 3) := by
  have h0 : EdgeInv ([[], [], [], []] : Mat Real) := by
    refine ⟨rfl, ?_, ?_⟩
    · intro row hrow
      simp only [List.mem_cons, List.not_mem_nil, or_false] at hrow
      rcases hrow with rfl | rfl | rfl | rfl <;> rfl
    · intro v hv
      simp at hv
  exact ⟨h0, claim_C8_homogeneous_invariant.1 _ 1 2 3 h0⟩

/-- drawIdx lists the loop indices visited by the DrawLines loop on a
    matrix with n columns: 0, 2, 4, ... while the index stays below
    n - 1. -/
def drawIdx (n : Nat) (i : Nat) : List Nat :=
  if h : i < n - 1 then i :: drawIdx n (i + 2) else []
termination_by n - 1 - i
decreasing_by omega

section DrawLinesLemmas

variable {α : Type} [LinearOrderedField α] [FloorRing α]

/-- The DrawLines loop is the fold of the per-pair line drawing over the
    visited index list. -/
theorem drawLinesAux_foldl (c : Color) (edges : Mat α) (i : Nat) :
    ∀ s : Screen, drawLinesAux c edges s i =
      (drawIdx (edges.headD []).length i).foldl
        (fun scr j => DrawLine c scr ((ExtractColumn edges j).getD 0 0)
          ((ExtractColumn edges j).getD 1 0) ((ExtractColumn edges (j + 1)).getD 0 0)
          ((ExtractColumn edges (j + 1)).getD 1 0)) s := by
  induction i using drawIdx.induct (edges.headD []).length with
  | case1 i hlt ih =>
      intro s
      rw [drawLinesAux, dif_pos hlt, drawIdx, dif_pos hlt, List.foldl_cons]
      exact ih _
  | case2 i hge =>
      intro s
      rw [drawLinesAux, dif_neg hge, drawIdx, dif_neg hge]
      rfl

/-- Every visited loop index leaves its partner index i + 1 strictly
    inside the column count. -/
theorem drawIdx_succ_lt (n : Nat) : ∀ (i : Nat), ∀ j ∈ drawIdx n i, j + 1 < n := by
  intro i
  induction i using drawIdx.induct n with
  | case1 i hlt ih =>
      intro j hj
      rw [drawIdx, dif_pos hlt] at hj
      rcases List.mem_cons.1 hj with rfl | hj2
      · omega
      · exact ih j hj2
  | case2 i hge =>
      intro j hj
      rw [drawIdx, dif_neg hge] at hj
      simp at hj

/-- Visited loop indices keep the parity of the start index. -/
theorem drawIdx_parity (n : Nat) : ∀ (i : Nat), ∀ j ∈ drawIdx n i, j % 2 = i % 2 := by
  intro i
  induction i using drawIdx.induct n with
  | case1 i hlt ih =>
      intro j hj
      rw [drawIdx, dif_pos hlt] at hj
      rcases List.mem_cons.1 hj with rfl | hj2
      · rfl
      · rw [ih j hj2]
        omega
  | case2 i hge =>
      intro j hj
      rw [drawIdx, dif_neg hge] at hj
      simp at hj

/-- With an odd column count, dropping the final column does not change
    the visited index list started at an even index. -/
theorem drawIdx_odd_trunc (n : Nat) (hodd : n % 2 = 1) :
    ∀ (i : Nat), i % 2 = 0 → drawIdx n i = drawIdx (n - 1) i := by
  intro i
  induction i using drawIdx.induct n with
  | case1 i hlt ih =>
      intro heven
      have hlt2 : i < (n - 1) - 1 := by omega
      rw [drawIdx, dif_pos hlt]
      rw [show drawIdx (n - 1) i = i :: drawIdx (n - 1) (i + 2) by
        rw [drawIdx, dif_pos hlt2]]
      rw [ih (by omega)]
  | case2 i hge =>
      intro heven
      have hge2 : ¬ i < (n - 1) - 1 := by omega
      rw [drawIdx, dif_neg hge]
      rw [show drawIdx (n - 1) i = [] by rw [drawIdx, dif_neg hge2]]

theorem getD_take {β : Type} (l : List β) (k j : Nat) (d : β) (hj : j < k) :
    (l.take k).getD j d = l.getD j d := by
  induction l generalizing k j with
  | nil => simp
  | cons a tl ih =>
      cases k with
      | zero => omega
      | succ k2 =>
          cases j with
          | zero => rfl
          | succ j2 => simpa using ih k2 j2 (by omega)

theorem ExtractColumn_take (edges : Mat α) (k j : Nat) (hj : j < k) :
    ExtractColumn (edges.map (fun row => row.take k)) j = ExtractColumn edges j := by
  unfold ExtractColumn
  rw [List.map_map]
  exact List.map_congr_left (fun row hrow => getD_take row k j 0 hj)

theorem foldl_congr_mem {β γ : Type} (l : List β) (f g : γ → β → γ)
    (h : ∀ b ∈ l, ∀ x, f x b = g x b) : ∀ s : γ, l.foldl f s = l.foldl g s := by
  induction l with
  | nil => intro s; rfl
  | cons b bs ih =>
      intro s
      rw [List.foldl_cons, List.foldl_cons, h b (by simp)]
      exact ih (fun b2 hb2 x => h b2 (by simp [hb2]) x) _

end DrawLinesLemmas

/-- C10: on an edge matrix with an odd column count n, DrawLines runs its
    loop over the even indices below n - 1, so every extracted pair
    (i, i + 1) stays inside the matrix (i + 1 < n), and the drawing never
    reads the final unpaired column: the result is unchanged when every
    row is truncated to its first n - 1 entries. -/
theorem claim_C10_odd_column_safety {α : Type} [LinearOrderedField α] [FloorRing α]
    (edges : Mat α) (s : Screen) (c : Color) (n : Nat)
    (hn : (edges.headD []).length = n) (hodd : n % 2 = 1) :
    (∀ j ∈ drawIdx n 0, j + 1 < n) ∧
    DrawLines c edges s =
      (drawIdx n 0).foldl
        (fun scr j => DrawLine c scr ((ExtractColumn edges j).getD 0 0)
          ((ExtractColumn edges j).getD 1 0) ((ExtractColumn edges (j + 1)).getD 0 0)
          ((ExtractColumn edges (j + 1)).getD 1 0)) s ∧
    DrawLines c edges s = DrawLines c (edges.map (fun row => row.take (n - 1))) s := by
  have hfold := drawLinesAux_foldl c edges 0 s
  rw [hn] at hfold
  refine ⟨drawIdx_succ_lt n 0, hfold, ?_⟩
  have hne : edges ≠ [] := by
    intro hc
    rw [hc] at hn
    simp at hn
    omega
  have hhead : ((edges.map (fun row => row.take (n - 1))).headD []).length = n - 1 := by
    cases edges with
    | nil => exact absurd rfl hne
    | cons r tl =>
        simp only [List.map_cons, List.headD_cons, List.length_take]
        simp only [List.headD_cons] at hn
        omega
  have hfold2 := drawLinesAux_foldl c (edges.map (fun row => row.take (n - 1))) 0 s
  rw [hhead] at hfold2
  unfold DrawLines
  rw [hfold, hfold2]
  show _ = (drawIdx (n - 1) 0).foldl _ s
  rw [← drawIdx_odd_trunc n hodd 0 rfl]
  apply foldl_congr_mem
  intro j hj x
  have hj1 : j + 1 < n := drawIdx_succ_lt n 0 j hj
  have hjev : j % 2 = 0 := drawIdx_parity n 0 j hj
  have hjk : j < n - 1 := by omega
  have hjk1 : j + 1 < n - 1 := by omega
  rw [ExtractColumn_take edges (n - 1) j hjk, ExtractColumn_take edges (n - 1) (j + 1) hjk1]

/-- Witness for C10 on a concrete three-column rational edge matrix. -/
theorem claim_C10_odd_column_safety_witness :
    (∀ j ∈ drawIdx 3 0, j + 1 < 3) ∧
    DrawLines [0, 0, 0] ([[0, 1, 2], [0, 1, 2], [0, 0, 0], [1, 1, 1]] : Mat ℚ) [] =
      (drawIdx 3 0).foldl
        (fun scr j => DrawLine [0, 0, 0] scr
          ((ExtractColumn ([[0, 1, 2], [0, 1, 2], [0, 0, 0], [1, 1, 1]] : Mat ℚ) j).getD 0 0)
          ((ExtractColumn ([[0, 1, 2], [0, 1, 2], [0, 0, 0], [1, 1, 1]] : Mat ℚ) j).getD 1 0)
          ((ExtractColumn ([[0, 1, 2], [0, 1, 2], [0, 0, 0], [1, 1, 1]] : Mat ℚ)
            (j + 1)).getD 0 0)
          ((ExtractColumn ([[0, 1, 2], [0, 1, 2], [0, 0, 0], [1, 1, 1]] : Mat ℚ)
            (j + 1)).getD 1 0)) [] ∧
    DrawLines [0, 0, 0] ([[0, 1, 2], [0, 1, 2], [0, 0, 0], [1, 1, 1]] : Mat ℚ) [] =
      DrawLines [0, 0, 0]
        (([[0, 1, 2], [0, 1, 2], [0, 0, 0], [1, 1, 1]] : Mat ℚ).map
          (fun row => row.take (3 - 1))) [] :=
  claim_C10_odd_column_safety ([[0, 1, 2], [0, 1, 2], [0, 0, 0], [1, 1, 1]] : Mat ℚ)
    [] [0, 0, 0] 3 rfl rfl

section RasterizerEval

variable {α : Type} [LinearOrderedField α] [FloorRing α]

theorem octant1_step_hi (cl : Color) (x1 y1 A B x y d : α) (s : Screen)
    (h : x ≤ x1 ∧ y ≤ y1) (hd : 0 < d) :
    octant1Loop cl x1 y1 A B x y d s =
      octant1Loop cl x1 y1 A B (x + 1) (y + 1) (d + 2 * B + 2 * A) (plot s cl x y) := by
  rw [octant1Loop, dif_pos h, if_pos hd]

theorem octant1_step_lo (cl : Color) (x1 y1 A B x y d : α) (s : Screen)
    (h : x ≤ x1 ∧ y ≤ y1) (hd : ¬ 0 < d) :
    octant1Loop cl x1 y1 A B x y d s =
      octant1Loop cl x1 y1 A B (x + 1) y (d + 2 * A) (plot s cl x y) := by
  rw [octant1Loop, dif_pos h, if_neg hd]

theorem octant1_stop (cl : Color) (x1 y1 A B x y d : α) (s : Screen)
    (h : ¬(x ≤ x1 ∧ y ≤ y1)) : octant1Loop cl x1 y1 A B x y d s = s := by
  rw [octant1Loop, dif_neg h]

theorem vert_step (cl : Color) (x y1 y : α) (s : Screen) (h : y ≤ y1) :
    vertLoop cl x y1 y s = vertLoop cl x y1 (y + 1) (plot s cl x y) := by
  rw [vertLoop, dif_pos h]

theorem vert_stop (cl : Color) (x y1 y : α) (s : Screen) (h : ¬ y ≤ y1) :
    vertLoop cl x y1 y s = s := by
  rw [vertLoop, dif_neg h]

theorem float64ToInt_natCast (a : Nat) : float64ToInt ((a : α)) = (a : Int) := by
  have ht : truncToInt ((a : α)) = (a : Int) := by
    unfold truncToInt
    rw [if_pos (Nat.cast_nonneg a)]
    exact Int.floor_natCast a
  unfold float64ToInt
  rw [ht, if_pos (by push_cast; norm_num)]

/-- Plotting at in-range natural coordinates writes exactly the flipped
    cell. -/
theorem plot_nat (s : Screen) (c : Color) (a b : Nat) (ha : a < 500) (hb : b < 500) :
    plot s c (a : α) (b : α) = setCell s (499 - b) a c := by
  unfold plot
  rw [float64ToInt_natCast, float64ToInt_natCast]
  rw [if_pos (by simp only [XRES, YRES]; omega)]
  rw [show ((YRES - (b : Int) - 1).toNat) = 499 - b by simp only [YRES]; omega]
  rw [show (((a : Nat) : Int)).toNat = a by omega]

end RasterizerEval

/-- DrawLine on the horizontal request from (0,0) to (4,0) writes the
    five cells of buffer row 499, columns 0 through 4, in order. -/
theorem DrawLine_horiz_eval (s : Screen) (c : Color) :
    DrawLine c s (0 : ℚ) 0 4 0 =
      setCell (setCell (setCell (setCell (setCell s 499 0 c) 499 1 c) 499 2 c) 499 3 c)
        499 4 c := by
  show (if (0 : ℚ) - 4 = 0 then _ else _) = _
  rw [if_neg (by norm_num)]
  norm_num
  rw [octant1_step_lo _ _ _ _ _ _ _ _ _ (by norm_num) (by norm_num)]
  norm_num
  rw [octant1_step_lo _ _ _ _ _ _ _ _ _ (by norm_num) (by norm_num)]
  norm_num
  rw [octant1_step_lo _ _ _ _ _ _ _ _ _ (by norm_num) (by norm_num)]
  norm_num
  rw [octant1_step_lo _ _ _ _ _ _ _ _ _ (by norm_num) (by norm_num)]
  norm_num
  rw [octant1_step_lo _ _ _ _ _ _ _ _ _ (by norm_num) (by norm_num)]
  norm_num
  rw [octant1_stop _ _ _ _ _ _ _ _ _ (by norm_num)]
  have p0 : ∀ s2 : Screen, plot s2 c (0 : ℚ) (0 : ℚ) = setCell s2 499 0 c := fun s2 => by
    simpa using plot_nat (α := ℚ) s2 c 0 0 (by omega) (by omega)
  have p1 : ∀ s2 : Screen, plot s2 c (1 : ℚ) (0 : ℚ) = setCell s2 499 1 c := fun s2 => by
    simpa using plot_nat (α := ℚ) s2 c 1 0 (by omega) (by omega)
  have p2 : ∀ s2 : Screen, plot s2 c (2 : ℚ) (0 : ℚ) = setCell s2 499 2 c := fun s2 => by
    simpa using plot_nat (α := ℚ) s2 c 2 0 (by omega) (by omega)
  have p3 : ∀ s2 : Screen, plot s2 c (3 : ℚ) (0 : ℚ) = setCell s2 499 3 c := fun s2 => by
    simpa using plot_nat (α := ℚ) s2 c 3 0 (by omega) (by omega)
  have p4 : ∀ s2 : Screen, plot s2 c (4 : ℚ) (0 : ℚ) = setCell s2 499 4 c := fun s2 => by
    simpa using plot_nat (α := ℚ) s2 c 4 0 (by omega) (by omega)
  rw [p0, p1, p2, p3, p4]

/-- DrawLine on the vertical request from (0,0) to (0,4) writes column 0
    of buffer rows 499 down through 495, in order. -/
theorem DrawLine_vert_eval (s : Screen) (c : Color) :
    DrawLine c s (0 : ℚ) 0 0 4 =
      setCell (setCell (setCell (setCell (setCell s 499 0 c) 498 0 c) 497 0 c) 496 0 c)
        495 0 c := by
  show (if (0 : ℚ) - 0 = 0 then _ else _) = _
  rw [if_pos (by norm_num)]
  norm_num
  rw [vert_step _ _ _ _ _ (by norm_num)]
  norm_num
  rw [vert_step _ _ _ _ _ (by norm_num)]
  norm_num
  rw [vert_step _ _ _ _ _ (by norm_num)]
  norm_num
  rw [vert_step _ _ _ _ _ (by norm_num)]
  norm_num
  rw [vert_step _ _ _ _ _ (by norm_num)]
  norm_num
  rw [vert_stop _ _ _ _ _ (by norm_num)]
  have p0 : ∀ s2 : Screen, plot s2 c (0 : ℚ) (0 : ℚ) = setCell s2 499 0 c := fun s2 => by
    simpa using plot_nat (α := ℚ) s2 c 0 0 (by omega) (by omega)
  have p1 : ∀ s2 : Screen, plot s2 c (0 : ℚ) (1 : ℚ) = setCell s2 498 0 c := fun s2 => by
    simpa using plot_nat (α := ℚ) s2 c 0 1 (by omega) (by omega)
  have p2 : ∀ s2 : Screen, plot s2 c (0 : ℚ) (2 : ℚ) = setCell s2 497 0 c := fun s2 => by
    simpa using plot_nat (α := ℚ) s2 c 0 2 (by omega) (by omega)
  have p3 : ∀ s2 : Screen, plot s2 c (0 : ℚ) (3 : ℚ) = setCell s2 496 0 c := fun s2 => by
    simpa using plot_nat (α := ℚ) s2 c 0 3 (by omega) (by omega)
  have p4 : ∀ s2 : Screen, plot s2 c (0 : ℚ) (4 : ℚ) = setCell s2 495 0 c := fun s2 => by
    simpa using plot_nat (α := ℚ) s2 c 0 4 (by omega) (by omega)
  rw [p0, p1, p2, p3, p4]

/-- DrawLine on the slope-one request from (0,0) to (4,4) writes the five
    diagonal cells (499,0), (498,1), (497,2), (496,3), (495,4). -/
theorem DrawLine_diag_eval (s : Screen) (c : Color) :
    DrawLine c s (0 : ℚ) 0 4 4 =
      setCell (setCell (setCell (setCell (setCell s 499 0 c) 498 1 c) 497 2 c) 496 3 c)
        495 4 c := by
  show (if (0 : ℚ) - 4 = 0 then _ else _) = _
  rw [if_neg (by norm_num)]
  norm_num
  rw [octant1_step_hi _ _ _ _ _ _ _ _ _ (by norm_num) (by norm_num)]
  norm_num
  rw [octant1_step_hi _ _ _ _ _ _ _ _ _ (by norm_num) (by norm_num)]
  norm_num
  rw [octant1_step_hi _ _ _ _ _ _ _ _ _ (by norm_num) (by norm_num)]
  norm_num
  rw [octant1_step_hi _ _ _ _ _ _ _ _ _ (by norm_num) (by norm_num)]
  norm_num
  rw [octant1_step_hi _ _ _ _ _ _ _ _ _ (by norm_num) (by norm_num)]
  norm_num
  rw [octant1_stop _ _ _ _ _ _ _ _ _ (by norm_num)]
  have p0 : ∀ s2 : Screen, plot s2 c (0 : ℚ) (0 : ℚ) = setCell s2 499 0 c := fun s2 => by
    simpa using plot_nat (α := ℚ) s2 c 0 0 (by omega) (by omega)
  have p1 : ∀ s2 : Screen, plot s2 c (1 : ℚ) (1 : ℚ) = setCell s2 498 1 c := fun s2 => by
    simpa using plot_nat (α := ℚ) s2 c 1 1 (by omega) (by omega)
  have p2 : ∀ s2 : Screen, plot s2 c (2 : ℚ) (2 : ℚ) = setCell s2 497 2 c := fun s2 => by
    simpa using plot_nat (α := ℚ) s2 c 2 2 (by omega) (by omega)
  have p3 : ∀ s2 : Screen, plot s2 c (3 : ℚ) (3 : ℚ) = setCell s2 496 3 c := fun s2 => by
    simpa using plot_nat (α := ℚ) s2 c 3 3 (by omega) (by omega)
  have p4 : ∀ s2 : Screen, plot s2 c (4 : ℚ) (4 : ℚ) = setCell s2 495 4 c := fun s2 => by
    simpa using plot_nat (α := ℚ) s2 c 4 4 (by omega) (by omega)
  rw [p0, p1, p2, p3, p4]

/-- ScreenWF states that a screen has exactly 500 rows of 500 cells. -/
def ScreenWF (s : Screen) : Prop :=
  s.length = 500 ∧ ∀ row ∈ s, row.length = 500

theorem mem_listModify {β : Type} (f : β → β) (i : Nat) (l : List β) :
    ∀ b ∈ listModify f i l, b ∈ l ∨ ∃ r ∈ l, b = f r := by
  induction l generalizing i with
  | nil =>
      intro b hb
      cases i <;> simp [listModify] at hb
  | cons r rs ih =>
      cases i with
      | zero =>
          intro b hb
          rcases List.mem_cons.1 hb with rfl | h2
          · exact Or.inr ⟨r, by simp, rfl⟩
          · exact Or.inl (by simp [h2])
      | succ n =>
          intro b hb
          rcases List.mem_cons.1 hb with rfl | h2
          · exact Or.inl (by simp)
          · rcases ih n b h2 with h | ⟨r2, hr2, rfl⟩
            · exact Or.inl (by simp [h])
            · exact Or.inr ⟨r2, by simp [hr2], rfl⟩

theorem ScreenWF_setCell {s : Screen} (w : ScreenWF s) (i j : Nat) (c : Color) :
    ScreenWF (setCell s i j c) := by
  refine ⟨?_, ?_⟩
  · unfold setCell
    rw [listModify_length, w.1]
  · intro row hrow
    rcases mem_listModify _ i s row hrow with h | ⟨r, hr, rfl⟩
    · exact w.2 row h
    · rw [List.length_set]
      exact w.2 r hr

theorem getCell_setCell_wf {s : Screen} (w : ScreenWF s) (i j : Nat)
    (hi : i < 500) (hj : j < 500) (c : Color) (i2 j2 : Nat) :
    getCell (setCell s i j c) i2 j2 = if i2 = i ∧ j2 = j then c else getCell s i2 j2 := by
  by_cases h : i2 = i ∧ j2 = j
  · rw [if_pos h]
    obtain ⟨rfl, rfl⟩ := h
    have hiLen : i2 < s.length := by
      rw [w.1]
      exact hi
    have hrowLen : (s.getD i2 []).length = 500 := w.2 _ (getD_mem_of_lt s i2 [] hiLen)
    refine getCell_setCell_eq s i2 j2 c hiLen ?_
    rw [hrowLen]
    exact hj
  · rw [if_neg h]
    exact getCell_setCell_ne s i j c i2 j2 h

/-- C5: on a well-formed 500 by 500 buffer, DrawLine from (0,0) to (4,0)
    colors exactly the five cells of flipped row 499, columns 0 through
    4, and no others; DrawLine from (0,0) to (0,4) colors exactly the
    five vertical cells of column 0, flipped rows 495 through 499; and
    DrawLine from (0,0) to (4,4) colors exactly the five cells of the
    connected monotonic diagonal i + j = 499 with j at most 4, with no
    gaps. -/
theorem claim_C5_drawline_cases (s : Screen) (c : Color)
    (hlen : s.length = 500) (hrows : ∀ row ∈ s, row.length = 500) :
    (∀ i j : Nat, getCell (DrawLine c s (0 : ℚ) 0 4 0) i j =
      if i = 499 ∧ j ≤ 4 then c else getCell s i j) ∧
    (∀ i j : Nat, getCell (DrawLine c s (0 : ℚ) 0 0 4) i j =
      if 495 ≤ i ∧ i ≤ 499 ∧ j = 0 then c else getCell s i j) ∧
    (∀ i j : Nat, getCell (DrawLine c s (0 : ℚ) 0 4 4) i j =
      if i + j = 499 ∧ j ≤ 4 then c else getCell s i j) := by
  have w : ScreenWF s := ⟨hlen, hrows⟩
  refine ⟨?_, ?_, ?_⟩
  · intro i j
    rw [DrawLine_horiz_eval]
    have w0 := ScreenWF_setCell w 499 0 c
    have w1 := ScreenWF_setCell w0 499 1 c
    have w2 := ScreenWF_setCell w1 499 2 c
    have w3 := ScreenWF_setCell w2 499 3 c
    rw [getCell_setCell_wf w3 499 4 (by omega) (by omega) c i j,
      getCell_setCell_wf w2 499 3 (by omega) (by omega) c i j,
      getCell_setCell_wf w1 499 2 (by omega) (by omega) c i j,
      getCell_setCell_wf w0 499 1 (by omega) (by omega) c i j,
      getCell_setCell_wf w 499 0 (by omega) (by omega) c i j]
    split_ifs <;> first | rfl | (exfalso; omega)
  · intro i j
    rw [DrawLine_vert_eval]
    have w0 := ScreenWF_setCell w 499 0 c
    have w1 := ScreenWF_setCell w0 498 0 c
    have w2 := ScreenWF_setCell w1 497 0 c
    have w3 := ScreenWF_setCell w2 496 0 c
    rw [getCell_setCell_wf w3 495 0 (by omega) (by omega) c i j,
      getCell_setCell_wf w2 496 0 (by omega) (by omega) c i j,
      getCell_setCell_wf w1 497 0 (by omega) (by omega) c i j,
      getCell_setCell_wf w0 498 0 (by omega) (by omega) c i j,
      getCell_setCell_wf w 499 0 (by omega) (by omega) c i j]
    split_ifs <;> first | rfl | (exfalso; omega)
  · intro i j
    rw [DrawLine_diag_eval]
    have w0 := ScreenWF_setCell w 499 0 c
    have w1 := ScreenWF_setCell w0 498 1 c
    have w2 := ScreenWF_setCell w1 497 2 c
    have w3 := ScreenWF_setCell w2 496 3 c
    rw [getCell_setCell_wf w3 495 4 (by omega) (by omega) c i j,
      getCell_setCell_wf w2 496 3 (by omega) (by omega) c i j,
      getCell_setCell_wf w1 497 2 (by omega) (by omega) c i j,
      getCell_setCell_wf w0 498 1 (by omega) (by omega) c i j,
      getCell_setCell_wf w 499 0 (by omega) (by omega) c i j]
    split_ifs <;> first | rfl | (exfalso; omega)

/-- Witness for C5 on the all-black 500 by 500 screen: the horizontal
    line colors cell (499, 2). -/
theorem claim_C5_drawline_cases_witness :
    getCell (DrawLine [255, 255, 255]
        (List.replicate 500 (List.replicate 500 ([0, 0, 0] : Color))) (0 : ℚ) 0 4 0)
      499 2 =
      if 499 = 499 ∧ 2 ≤ 4 then [255, 255, 255]
      else getCell (List.replicate 500 (List.replicate 500 ([0, 0, 0] : Color))) 499 2 :=
  (claim_C5_drawline_cases
    (List.replicate 500 (List.replicate 500 ([0, 0, 0] : Color))) [255, 255, 255]
    (List.length_replicate 500 _)
    (fun row h => by rw [List.eq_of_mem_replicate h, List.length_replicate])).1 499 2

end Wireframe
